import Mathlib

/-!
Verification of the fixed-timestep simulation clock and schedule runner of
`bevy-rapier-sim-time` (`src/time.rs`, with the reset logic of `src/main.rs`).

Modelling conventions:
* `std::time::Duration` values are nanosecond counts (`Nat`); the largest
  representable duration (`Duration::MAX`) is `DMAX`.  `saturating_add` and
  `checked_sub` are modelled exactly.
* A panic of the Rust code is modelled by `Option.none`; functions that cannot
  panic are total.
* `f32` speeds are modelled by `F32`: an exact rational for a finite value, or
  one of the non-finite values `inf`, `negInf`, `nan`.  The rounding performed
  by `f32` arithmetic inside `Duration::mul_f32` is abstracted away: the
  product of a duration and a finite speed is computed exactly over `ℚ` and
  floored to a nanosecond count (negative zero is not modelled separately).
* The wall-clock instants read by `Instant::elapsed` inside
  `run_physics_schedule` are an input of the model: `wall k` is the elapsed
  wall-clock time observed at the budget check following the k-th run of the
  physics schedule in the current frame.
* Bevy's `Time::advance_by` adds the timestep to the total elapsed virtual
  time; the elapsed total is modelled as an unbounded `Nat` (its overflow lies
  in engine code outside this repository and is unreachable in practice).
-/

namespace SimTime

/-- Largest value of `std::time::Duration`, in nanoseconds:
`u64::MAX` seconds plus `999_999_999` nanoseconds. -/
def DMAX : Nat := 18446744073709551615 * 1000000000 + 999999999

/-- `Duration::saturating_add` on nanosecond counts. -/
def satAdd (a b : Nat) : Nat := min (a + b) DMAX

/-- `Duration::checked_sub` on nanosecond counts. -/
def checkedSub (a b : Nat) : Option Nat := if b ≤ a then some (a - b) else none

/-- `DEFAULT_TIMESTEP = Duration::from_micros(15625)` (src/time.rs line 9). -/
def DEFAULT_TIMESTEP : Nat := 15625000

/-- `MAX_PHYSICS_EXEC_TIME = Duration::from_micros(15625)` (src/time.rs line 10). -/
def MAX_PHYSICS_EXEC_TIME : Nat := 15625000

/-- Model of an `f32` speed value: finite values carry their exact rational
value; the non-finite values are distinguished. -/
inductive F32 where
  | finite (val : ℚ)
  | inf
  | negInf
  | nan
deriving DecidableEq

/-- Model of `Duration::mul_f32` (used as `delta.mul_f32(speed)` in
`accumulate_time`): the product `d * q` is computed exactly over `ℚ`, written
out on the numerator `q.num` and positive denominator `q.den` so that it
evaluates by kernel reduction (`q < 0` iff `q.num < 0`; `DMAX < d * q` iff
`DMAX * q.den < d * q.num`; for `0 ≤ q` the floor of `d * q` is
`d * q.num / q.den`).  Rust panics — modelled by `none` — when the scaled
value is negative, not finite, or exceeds `Duration::MAX`. -/
def durMulF32 (d : Nat) : F32 → Option Nat
  | .finite q =>
      if q.num < 0 ∨ (DMAX : Int) * q.den < d * q.num then none
      else some (d * q.num.toNat / q.den)
  | .inf => none
  | .negInf => none
  | .nan => none

/-- `PhysicsTimeMode` (src/time.rs lines 91-96). -/
inductive PhysicsTimeMode where
  | Paused
  | OneTick
  | Running (speed : F32)
deriving DecidableEq

/-- `Running` test, used to state the `old_mode` invariant. -/
def PhysicsTimeMode.isRunning : PhysicsTimeMode → Bool
  | .Running _ => true
  | _ => false

/-- `PhysicsTimeInner` (src/time.rs lines 62-69); durations in nanoseconds. -/
structure PhysicsTimeInner where
  mode : PhysicsTimeMode
  old_mode : PhysicsTimeMode
  timestep : Nat
  overstep : Nat
deriving DecidableEq

/-- `PhysicsTimeInner::set_mode` (src/time.rs lines 72-77): entering a
`Running` mode also records it in `old_mode`. -/
def PhysicsTimeInner.set_mode (c : PhysicsTimeInner) (m : PhysicsTimeMode) : PhysicsTimeInner :=
  match m with
  | .Running _ => { c with old_mode := m, mode := m }
  | _ => { c with mode := m }

/-- `Default for PhysicsTimeInner` (src/time.rs lines 80-89);
`PhysicsTimeMode::default()` is `Running { speed: 1. }`. -/
def PhysicsTimeInner.default : PhysicsTimeInner :=
  { mode := .Running (.finite 1)
    old_mode := .Running (.finite 1)
    timestep := DEFAULT_TIMESTEP
    overstep := 0 }

/-- `PhysicsTime = Time<PhysicsTimeInner>`: the clock context together with the
total elapsed virtual time maintained by Bevy's `Time` wrapper
(`advance_by` adds to it). -/
structure PhysicsTime where
  context : PhysicsTimeInner
  elapsed : Nat
deriving DecidableEq

/-- `PhysicsTime::default()`: default context, zero elapsed time. -/
def PhysicsTime.default : PhysicsTime := { context := PhysicsTimeInner.default, elapsed := 0 }

/-- `PhysicsTimeExt::pause` (src/time.rs lines 44-46). -/
def PhysicsTime.pause (t : PhysicsTime) : PhysicsTime :=
  { t with context := t.context.set_mode .Paused }

/-- `PhysicsTimeExt::resume` (src/time.rs lines 48-51). -/
def PhysicsTime.resume (t : PhysicsTime) : PhysicsTime :=
  { t with context := t.context.set_mode t.context.old_mode }

/-- `PhysicsTimeExt::step` (src/time.rs lines 53-55). -/
def PhysicsTime.step (t : PhysicsTime) : PhysicsTime :=
  { t with context := t.context.set_mode .OneTick }

/-- `PhysicsTimeExt::run` (src/time.rs lines 57-59). -/
def PhysicsTime.run (t : PhysicsTime) (speed : F32) : PhysicsTime :=
  { t with context := t.context.set_mode (.Running speed) }

/-- `accumulate_time` (src/time.rs lines 104-117).  `none` models the panic of
`Duration::mul_f32` on a negative, non-finite or overflowing scaled delta;
the test `speed == std::f32::INFINITY` holds exactly for `F32.inf`
(`NaN == INFINITY` is false in Rust). -/
def accumulate_time (t : PhysicsTime) (delta : Nat) : Option PhysicsTime :=
  match t.context.mode with
  | .Paused => some t
  | .OneTick => some t
  | .Running speed =>
      if speed = .inf then
        some { t with context := { t.context with overstep := DMAX } }
      else
        match durMulF32 delta speed with
        | none => none
        | some p =>
            some { t with context := { t.context with overstep := satAdd t.context.overstep p } }

/-- `expend_time` (src/time.rs lines 119-143): returns the Rust boolean result
together with the updated clock; a `true` result is followed by
`time.advance_by(timestep)`. -/
def expend_time (t : PhysicsTime) : Bool × PhysicsTime :=
  match t.context.mode with
  | .Paused => (false, t)
  | .OneTick =>
      let c := { t.context with mode := .Paused, overstep := 0 }
      (true, { context := c, elapsed := t.elapsed + c.timestep })
  | .Running _ =>
      match checkedSub t.context.overstep t.context.timestep with
      | some nv =>
          let c := { t.context with overstep := nv }
          (true, { context := c, elapsed := t.elapsed + c.timestep })
      | none => (false, t)

/-- The clock state after one `expend_time` call (discarding the boolean). -/
def expendState (t : PhysicsTime) : PhysicsTime := (expend_time t).2

/-- `limit_overstep` (src/time.rs lines 145-148):
`overstep = overstep.min(timestep * 3)`. -/
def limit_overstep (t : PhysicsTime) : PhysicsTime :=
  { t with context := { t.context with overstep := min t.context.overstep (t.context.timestep * 3) } }

/-- The `while expend_time(..) { schedule.run(..); if elapsed >= budget break }`
loop of `run_physics_schedule` (src/time.rs lines 156-159).  `steps` counts the
schedule runs so far, `wall k` is the wall-clock elapsed time observed at the
budget check after the k-th schedule run, and `fuel` bounds the iterations:
`none` means the loop did not finish within `fuel` iterations. -/
def physicsLoop : Nat → PhysicsTime → Nat → (Nat → Nat) → Option (PhysicsTime × Nat)
  | 0, _, _, _ => none
  | fuel + 1, t, steps, wall =>
      match expend_time t with
      | (false, t2) => some (t2, steps)
      | (true, t2) =>
          if MAX_PHYSICS_EXEC_TIME ≤ wall (steps + 1) then some (t2, steps + 1)
          else physicsLoop fuel t2 (steps + 1) wall

/-- `run_physics_schedule` (src/time.rs lines 150-162): accumulate the frame's
virtual delta, consume sub-steps under the wall-clock budget, clamp the
overstep.  Returns the final clock and the number of schedule runs; `none`
models a panic inside `accumulate_time` or exhaustion of the loop fuel. -/
def run_physics_schedule (fuel : Nat) (t : PhysicsTime) (wall : Nat → Nat) (delta : Nat) :
    Option (PhysicsTime × Nat) :=
  (accumulate_time t delta).bind fun t1 =>
    (physicsLoop fuel t1 0 wall).map fun p => (limit_overstep p.1, p.2)

/-- `reset_scene` (src/main.rs lines 106-119), restricted to its effect on the
clock: when a `RestartEvent` is pending it replaces the clock with
`PhysicsTime::default()` and calls `resume()`; otherwise it returns early. -/
def reset_scene (hasEvent : Bool) (t : PhysicsTime) : PhysicsTime :=
  if hasEvent then PhysicsTime.default.resume else t

/-- Modulus of `u32`, the type of the `DiagnosticFrameCount` counter
(src/time.rs line 13). -/
def U32_MODULUS : Nat := 4294967296

/-- `diagnosics_count` (src/time.rs lines 164-166): one increment of the
`DiagnosticFrameCount` counter per run of the physics schedule; the counter is
a `u32`, so `frame_count.0 += 1` wraps modulo `2^32` (release-mode overflow
semantics). -/
def diagnosics_count (frame_count : Nat) : Nat := (frame_count + 1) % U32_MODULUS

/-- History length of the `physics_fps` diagnostic (src/time.rs line 24). -/
def MAX_HISTORY : Nat := 10

/-- `Diagnostic::add_measurement` for the `physics_fps` diagnostic: append the
sample and keep the most recent `MAX_HISTORY` entries. -/
def addMeasurement (history : List ℚ) (v : ℚ) : List ℚ :=
  let h := history ++ [v]
  h.drop (h.length - MAX_HISTORY)

/-- `diagnostics_report` (src/time.rs lines 168-179): with a zero real delta it
returns without touching the counter or the history; otherwise it records
`frame_count / delta` and zeroes the counter.  The `f64` arithmetic is
modelled exactly over `ℚ` (delta in seconds). -/
def diagnostics_report (frame_count : Nat) (delta : ℚ) (history : List ℚ) :
    Nat × List ℚ :=
  if delta = 0 then (frame_count, history)
  else (0, addMeasurement history ((frame_count : ℚ) / delta))

/-- One external command applied to the clock between or during host frames:
the four `PhysicsTimeExt` commands issued by the UI, a whole
`run_physics_schedule` frame, or a restart-event reset. -/
inductive Cmd where
  | pause
  | resume
  | step
  | run (speed : F32)
  | frame (fuel : Nat) (wall : Nat → Nat) (delta : Nat)
  | reset

/-- Apply one command; `none` propagates a panic or fuel exhaustion of a frame. -/
def applyCmd (t : PhysicsTime) : Cmd → Option PhysicsTime
  | .pause => some t.pause
  | .resume => some t.resume
  | .step => some t.step
  | .run s => some (t.run s)
  | .frame fuel wall delta => (run_physics_schedule fuel t wall delta).map Prod.fst
  | .reset => some (reset_scene true t)

/-- Run a sequence of commands from a starting clock. -/
def runCmds (t : PhysicsTime) : List Cmd → Option PhysicsTime
  | [] => some t
  | c :: cs =>
      match applyCmd t c with
      | none => none
      | some t2 => runCmds t2 cs

/-- The invariant preserved by every command reachable from the default clock:
`old_mode` always holds a `Running` variant, a `Running` current mode
coincides with `old_mode`, the timestep is the constant `DEFAULT_TIMESTEP`,
and the elapsed total is a multiple of the timestep. -/
def Inv (t : PhysicsTime) : Prop :=
  t.context.old_mode.isRunning = true ∧
  (t.context.mode.isRunning = true → t.context.mode = t.context.old_mode) ∧
  t.context.timestep = DEFAULT_TIMESTEP ∧
  DEFAULT_TIMESTEP ∣ t.elapsed
end SimTime

namespace SimTime

/-! Helper lemmas about the individual operations. -/

theorem isRunning_iff (m : PhysicsTimeMode) : m.isRunning = true ↔ ∃ s, m = .Running s := by
  cases m <;> simp [PhysicsTimeMode.isRunning]

theorem expend_time_paused {t : PhysicsTime} (h : t.context.mode = .Paused) :
    expend_time t = (false, t) := by
  simp [expend_time, h]

theorem expend_time_oneTick {t : PhysicsTime} (h : t.context.mode = .OneTick) :
    expend_time t =
      (true, { context := { t.context with mode := .Paused, overstep := 0 },
               elapsed := t.elapsed + t.context.timestep }) := by
  simp [expend_time, h]

theorem expend_time_running_true {t : PhysicsTime} {s : F32}
    (h : t.context.mode = .Running s) (hov : t.context.timestep ≤ t.context.overstep) :
    expend_time t =
      (true, { context := { t.context with overstep := t.context.overstep - t.context.timestep },
               elapsed := t.elapsed + t.context.timestep }) := by
  simp [expend_time, h, checkedSub, hov]

theorem expend_time_running_false {t : PhysicsTime} {s : F32}
    (h : t.context.mode = .Running s) (hov : t.context.overstep < t.context.timestep) :
    expend_time t = (false, t) := by
  simp [expend_time, h, checkedSub, Nat.not_le.mpr hov]

theorem expendState_timestep (t : PhysicsTime) :
    (expendState t).context.timestep = t.context.timestep := by
  unfold expendState expend_time
  cases h : t.context.mode <;> simp
  cases hc : checkedSub t.context.overstep t.context.timestep <;> simp

theorem expendState_iterate_timestep (n : Nat) (t : PhysicsTime) :
    (expendState^[n] t).context.timestep = t.context.timestep := by
  induction n generalizing t with
  | zero => rfl
  | succ n ih => rw [Function.iterate_succ_apply, ih, expendState_timestep]

theorem accumulate_time_some {t : PhysicsTime} {d : Nat} {t1 : PhysicsTime}
    (h : accumulate_time t d = some t1) :
    t1.context.mode = t.context.mode ∧ t1.context.old_mode = t.context.old_mode ∧
    t1.context.timestep = t.context.timestep ∧ t1.elapsed = t.elapsed := by
  unfold accumulate_time at h
  split at h
  · cases h; exact ⟨rfl, rfl, rfl, rfl⟩
  · cases h; exact ⟨rfl, rfl, rfl, rfl⟩
  · split at h
    · cases h; exact ⟨rfl, rfl, rfl, rfl⟩
    · split at h
      · cases h
      · cases h; exact ⟨rfl, rfl, rfl, rfl⟩

theorem limit_overstep_le (t : PhysicsTime) :
    (limit_overstep t).context.overstep ≤ 3 * (limit_overstep t).context.timestep := by
  show min t.context.overstep (t.context.timestep * 3) ≤ 3 * t.context.timestep
  rw [Nat.mul_comm 3]
  exact Nat.min_le_right _ _

/-! Preservation of the reachable-state invariant `Inv`. -/

theorem inv_default : Inv PhysicsTime.default :=
  ⟨rfl, fun _ => rfl, rfl, dvd_zero _⟩

theorem inv_pause {t : PhysicsTime} (h : Inv t) : Inv t.pause := by
  obtain ⟨h1, _, h3, h4⟩ := h
  exact ⟨h1, by simp [PhysicsTime.pause, PhysicsTimeInner.set_mode, PhysicsTimeMode.isRunning],
    h3, h4⟩

theorem inv_step {t : PhysicsTime} (h : Inv t) : Inv t.step := by
  obtain ⟨h1, _, h3, h4⟩ := h
  exact ⟨h1, by simp [PhysicsTime.step, PhysicsTimeInner.set_mode, PhysicsTimeMode.isRunning],
    h3, h4⟩

theorem inv_run {t : PhysicsTime} (s : F32) (h : Inv t) : Inv (t.run s) := by
  obtain ⟨_, _, h3, h4⟩ := h
  exact ⟨by simp [PhysicsTime.run, PhysicsTimeInner.set_mode, PhysicsTimeMode.isRunning],
    by simp [PhysicsTime.run, PhysicsTimeInner.set_mode], h3, h4⟩

theorem inv_resume {t : PhysicsTime} (h : Inv t) : Inv t.resume := by
  obtain ⟨h1, _, h3, h4⟩ := h
  obtain ⟨s, hs⟩ := (isRunning_iff _).mp h1
  refine ⟨?_, ?_, ?_, h4⟩
  · simp [PhysicsTime.resume, PhysicsTimeInner.set_mode, hs, PhysicsTimeMode.isRunning]
  · simp [PhysicsTime.resume, PhysicsTimeInner.set_mode, hs]
  · simpa [PhysicsTime.resume, PhysicsTimeInner.set_mode, hs] using h3

theorem inv_expendState {t : PhysicsTime} (h : Inv t) : Inv (expendState t) := by
  obtain ⟨h1, h2, h3, h4⟩ := h
  unfold expendState
  cases hm : t.context.mode with
  | Paused => rw [expend_time_paused hm]; exact ⟨h1, h2, h3, h4⟩
  | OneTick =>
      rw [expend_time_oneTick hm]
      refine ⟨h1, by simp [PhysicsTimeMode.isRunning], h3, ?_⟩
      show DEFAULT_TIMESTEP ∣ t.elapsed + t.context.timestep
      rw [h3]
      exact Dvd.dvd.add h4 dvd_rfl
  | Running s =>
      rcases Nat.lt_or_ge t.context.overstep t.context.timestep with hov | hov
      · rw [expend_time_running_false hm hov]; exact ⟨h1, h2, h3, h4⟩
      · rw [expend_time_running_true hm hov]
        refine ⟨h1, fun _ => h2 (by simp [hm, PhysicsTimeMode.isRunning]), h3, ?_⟩
        show DEFAULT_TIMESTEP ∣ t.elapsed + t.context.timestep
        rw [h3]
        exact Dvd.dvd.add h4 dvd_rfl

theorem inv_accumulate {t : PhysicsTime} {d : Nat} {t1 : PhysicsTime}
    (h : Inv t) (ha : accumulate_time t d = some t1) : Inv t1 := by
  obtain ⟨h1, h2, h3, h4⟩ := h
  obtain ⟨e1, e2, e3, e4⟩ := accumulate_time_some ha
  exact ⟨e2 ▸ h1, fun hr => by rw [e1, e2]; exact h2 (e1 ▸ hr), e3 ▸ h3, e4 ▸ h4⟩

theorem inv_limit {t : PhysicsTime} (h : Inv t) : Inv (limit_overstep t) := by
  obtain ⟨h1, h2, h3, h4⟩ := h
  exact ⟨h1, h2, h3, h4⟩

theorem inv_physicsLoop :
    ∀ (fuel : Nat) (t : PhysicsTime) (steps : Nat) (wall : Nat → Nat) (t2 : PhysicsTime) (n : Nat),
      Inv t → physicsLoop fuel t steps wall = some (t2, n) → Inv t2 := by
  intro fuel
  induction fuel with
  | zero => intro t steps wall t2 n _ h; cases h
  | succ fuel ih =>
      intro t steps wall t2 n hInv h
      unfold physicsLoop at h
      split at h
      case h_1 t' heq =>
        cases h
        have := inv_expendState hInv
        rwa [expendState, heq] at this
      case h_2 t' heq =>
        have hInv' : Inv t' := by
          have := inv_expendState hInv
          rwa [expendState, heq] at this
        split at h
        · cases h; exact hInv'
        · exact ih t' (steps + 1) wall t2 n hInv' h

theorem inv_run_physics_schedule {fuel : Nat} {t : PhysicsTime} {wall : Nat → Nat} {d : Nat}
    {t2 : PhysicsTime} {n : Nat} (h : Inv t)
    (hr : run_physics_schedule fuel t wall d = some (t2, n)) : Inv t2 := by
  unfold run_physics_schedule at hr
  rw [Option.bind_eq_some] at hr
  obtain ⟨t1, ha, hmap⟩ := hr
  rw [Option.map_eq_some'] at hmap
  obtain ⟨⟨t3, m⟩, hl, hp⟩ := hmap
  cases hp
  exact inv_limit (inv_physicsLoop fuel t1 0 wall t3 m (inv_accumulate h ha) hl)

theorem inv_reset (t : PhysicsTime) : Inv (reset_scene true t) := by
  simp only [reset_scene, if_pos]
  exact inv_resume inv_default

theorem inv_applyCmd {t : PhysicsTime} {c : Cmd} {t2 : PhysicsTime}
    (h : Inv t) (ha : applyCmd t c = some t2) : Inv t2 := by
  cases c with
  | pause => cases ha; exact inv_pause h
  | resume => cases ha; exact inv_resume h
  | step => cases ha; exact inv_step h
  | run s => cases ha; exact inv_run s h
  | reset => cases ha; exact inv_reset t
  | frame fuel wall delta =>
      simp only [applyCmd, Option.map_eq_some'] at ha
      obtain ⟨⟨t', n⟩, hr, h2⟩ := ha
      exact h2 ▸ inv_run_physics_schedule h hr

theorem inv_runCmds :
    ∀ (cs : List Cmd) (t t2 : PhysicsTime), Inv t → runCmds t cs = some t2 → Inv t2 := by
  intro cs
  induction cs with
  | nil => intro t t2 h hr; cases hr; exact h
  | cons c cs ih =>
      intro t t2 h hr
      unfold runCmds at hr
      split at hr
      · cases hr
      · next t' ha => exact ih t' t2 (inv_applyCmd h ha) hr

end SimTime

namespace SimTime

theorem expend_time_false_eq {t t' : PhysicsTime} (h : expend_time t = (false, t')) : t' = t := by
  unfold expend_time at h
  split at h
  · cases h; rfl
  · injection h with h1 _; cases h1
  · split at h
    · injection h with h1 _; cases h1
    · cases h; rfl

theorem physicsLoop_spec :
    ∀ (fuel : Nat) (t : PhysicsTime) (steps : Nat) (wall : Nat → Nat) (t2 : PhysicsTime) (n : Nat),
      physicsLoop fuel t steps wall = some (t2, n) →
      steps ≤ n ∧ t2 = expendState^[n - steps] t ∧
        ((expend_time t2).1 = false ∨ MAX_PHYSICS_EXEC_TIME ≤ wall n) := by
  intro fuel
  induction fuel with
  | zero => intro t steps wall t2 n h; cases h
  | succ fuel ih =>
      intro t steps wall t2 n h
      unfold physicsLoop at h
      split at h
      case h_1 t' heq =>
        cases h
        have ht : t2 = t := expend_time_false_eq heq
        subst ht
        exact ⟨le_refl _, by simp, Or.inl (by rw [heq])⟩
      case h_2 t' heq =>
        split at h
        · cases h
          refine ⟨Nat.le_succ _, ?_, Or.inr (by assumption)⟩
          have harith : steps + 1 - steps = 1 := by omega
          rw [harith, Function.iterate_one, expendState, heq]
        · obtain ⟨hle, ht2, hexit⟩ := ih t' (steps + 1) wall t2 n h
          refine ⟨Nat.le_of_succ_le hle, ?_, hexit⟩
          have harith : n - steps = (n - (steps + 1)) + 1 := by omega
          rw [harith, Function.iterate_succ_apply]
          rw [ht2, expendState, heq]

/-- C1: for every host frame (any delta, any wall-clock readings, any starting
clock state — hence after any interleaving of mode commands between frames),
when `run_physics_schedule` reaches the final clamp its result satisfies
`0 ≤ overstep ≤ 3 * timestep`. -/
theorem overstep_bound_after_clamp
    (fuel : Nat) (t : PhysicsTime) (wall : Nat → Nat) (delta : Nat)
    (t2 : PhysicsTime) (n : Nat)
    (h : run_physics_schedule fuel t wall delta = some (t2, n)) :
    0 ≤ t2.context.overstep ∧ t2.context.overstep ≤ 3 * t2.context.timestep := by
  unfold run_physics_schedule at h
  rw [Option.bind_eq_some] at h
  obtain ⟨t1, _, hmap⟩ := h
  rw [Option.map_eq_some'] at hmap
  obtain ⟨⟨t3, m⟩, _, hp⟩ := hmap
  cases hp
  exact ⟨Nat.zero_le _, limit_overstep_le t3⟩

/-- Witness for C1: a concrete frame from the default clock with a 100 ms
delta runs six sub-steps and ends inside the clamp bound. -/
theorem overstep_bound_after_clamp_witness :
    0 ≤ (⟨⟨.Running (.finite 1), .Running (.finite 1), 15625000, 6250000⟩, 93750000⟩ :
        PhysicsTime).context.overstep ∧
    (⟨⟨.Running (.finite 1), .Running (.finite 1), 15625000, 6250000⟩, 93750000⟩ :
        PhysicsTime).context.overstep ≤
      3 * (⟨⟨.Running (.finite 1), .Running (.finite 1), 15625000, 6250000⟩, 93750000⟩ :
        PhysicsTime).context.timestep :=
  overstep_bound_after_clamp 10 PhysicsTime.default (fun _ => 0) 100000000 _ 6 (by decide)

/-- C2: from any mode, any overstep and any frame delta, `step()` followed by
one `run_physics_schedule` frame runs the physics schedule exactly once and
leaves the clock `Paused` with zero overstep. -/
theorem step_then_advance_one_tick
    (t : PhysicsTime) (fuel : Nat) (wall : Nat → Nat) (delta : Nat)
    (hfuel : 2 ≤ fuel) :
    ∃ t2, run_physics_schedule fuel t.step wall delta = some (t2, 1) ∧
      t2.context.mode = .Paused ∧ t2.context.overstep = 0 := by
  obtain ⟨f, rfl⟩ : ∃ f, fuel = f + 2 := ⟨fuel - 2, by omega⟩
  have hmode : t.step.context.mode = .OneTick := rfl
  have ha : accumulate_time t.step delta = some t.step := by
    unfold accumulate_time
    rw [hmode]
  have hone := expend_time_oneTick hmode
  set u1 : PhysicsTime :=
    { context := { t.step.context with mode := .Paused, overstep := 0 },
      elapsed := t.step.elapsed + t.step.context.timestep } with hu1
  have hloop : physicsLoop (f + 2) t.step 0 wall = some (u1, 1) := by
    unfold physicsLoop
    rw [hone]
    show (if MAX_PHYSICS_EXEC_TIME ≤ wall (0 + 1) then some (u1, 0 + 1)
          else physicsLoop (f + 1) u1 (0 + 1) wall) = some (u1, 1)
    by_cases hb : MAX_PHYSICS_EXEC_TIME ≤ wall (0 + 1)
    · rw [if_pos hb]
    · rw [if_neg hb]
      unfold physicsLoop
      rw [expend_time_paused (by rw [hu1])]
  refine ⟨limit_overstep u1, ?_, rfl, ?_⟩
  · unfold run_physics_schedule
    rw [ha, Option.some_bind, hloop, Option.map_some']
  · show min u1.context.overstep (u1.context.timestep * 3) = 0
    rw [hu1]
    exact Nat.zero_min _

/-- Witness for C2: stepping the default clock and advancing one frame. -/
theorem step_then_advance_one_tick_witness :
    ∃ t2, run_physics_schedule 2 PhysicsTime.default.step (fun _ => 0) 0 = some (t2, 1) ∧
      t2.context.mode = .Paused ∧ t2.context.overstep = 0 :=
  step_then_advance_one_tick PhysicsTime.default 2 (fun _ => 0) 0 (by decide)

end SimTime

namespace SimTime

/-- C3: when the step callback consumes at least the wall-clock budget (one
`fixed_step` of wall time, `MAX_PHYSICS_EXEC_TIME = DEFAULT_TIMESTEP`), a
single frame whose accumulation succeeds executes at most one sub-step,
returns a result (no error), and keeps the unconsumed virtual time — capped at
the clamp bound — in the overstep; moreover any exit of the consumption loop
happens either because `expend_time` returned false or because the budget
check fired. -/
theorem backpressure_single_substep
    (fuel : Nat) (t : PhysicsTime) (wall : Nat → Nat) (delta : Nat) (t1 : PhysicsTime)
    (hfuel : 1 ≤ fuel)
    (ha : accumulate_time t delta = some t1)
    (hslow : MAX_PHYSICS_EXEC_TIME ≤ wall 1) :
    MAX_PHYSICS_EXEC_TIME = DEFAULT_TIMESTEP ∧
    (∃ t2 n, run_physics_schedule fuel t wall delta = some (t2, n) ∧ n ≤ 1 ∧
       t2.context.overstep =
         min ((expendState^[n] t1).context.overstep) (t1.context.timestep * 3)) ∧
    (∀ (f s : Nat) (u u2 : PhysicsTime) (m : Nat) (w : Nat → Nat),
       physicsLoop f u s w = some (u2, m) →
       (expend_time u2).1 = false ∨ MAX_PHYSICS_EXEC_TIME ≤ w m) := by
  refine ⟨rfl, ?_, fun f s u u2 m w h => (physicsLoop_spec f u s w u2 m h).2.2⟩
  obtain ⟨f, rfl⟩ : ∃ f, fuel = f + 1 := ⟨fuel - 1, by omega⟩
  cases he : expend_time t1 with
  | mk b t1' =>
    cases b with
    | false =>
        have ht1' : t1' = t1 := expend_time_false_eq he
        subst ht1'
        have hloop : physicsLoop (f + 1) t1' 0 wall = some (t1', 0) := by
          unfold physicsLoop
          rw [he]
        refine ⟨limit_overstep t1', 0, ?_, Nat.zero_le _, ?_⟩
        · unfold run_physics_schedule
          rw [ha, Option.some_bind, hloop, Option.map_some']
        · rfl
    | true =>
        have hts : t1'.context.timestep = t1.context.timestep := by
          have h2 : t1' = expendState t1 := by rw [expendState, he]
          rw [h2]
          exact expendState_timestep t1
        have hloop : physicsLoop (f + 1) t1 0 wall = some (t1', 1) := by
          unfold physicsLoop
          rw [he]
          show (if MAX_PHYSICS_EXEC_TIME ≤ wall (0 + 1) then some (t1', 0 + 1)
                else physicsLoop f t1' (0 + 1) wall) = some (t1', 1)
          rw [Nat.zero_add, if_pos hslow]
        refine ⟨limit_overstep t1', 1, ?_, le_refl _, ?_⟩
        · unfold run_physics_schedule
          rw [ha, Option.some_bind, hloop, Option.map_some']
        · simp only [Function.iterate_one, expendState, he, limit_overstep, hts]

/-- Witness for C3: the default clock with a 100 ms delta and a callback that
uses the whole budget runs exactly one sub-step. -/
theorem backpressure_single_substep_witness :
    MAX_PHYSICS_EXEC_TIME = DEFAULT_TIMESTEP ∧
    (∃ t2 n, run_physics_schedule 1 PhysicsTime.default (fun _ => MAX_PHYSICS_EXEC_TIME)
        100000000 = some (t2, n) ∧ n ≤ 1 ∧
       t2.context.overstep =
         min ((expendState^[n]
             (⟨⟨.Running (.finite 1), .Running (.finite 1), 15625000, 100000000⟩, 0⟩ :
               PhysicsTime)).context.overstep)
           ((⟨⟨.Running (.finite 1), .Running (.finite 1), 15625000, 100000000⟩, 0⟩ :
               PhysicsTime).context.timestep * 3)) ∧
    (∀ (f s : Nat) (u u2 : PhysicsTime) (m : Nat) (w : Nat → Nat),
       physicsLoop f u s w = some (u2, m) →
       (expend_time u2).1 = false ∨ MAX_PHYSICS_EXEC_TIME ≤ w m) :=
  backpressure_single_substep 1 PhysicsTime.default (fun _ => MAX_PHYSICS_EXEC_TIME)
    100000000 _ (by decide) (by decide) (by decide)

/-- C4 counterexample: the claim says every finite or non-finite `f32` speed
passed to `run()` degrades gracefully, but `run(f32::NAN)` followed by an
accumulation of a 1 s wall delta panics inside `Duration::mul_f32`
(modelled by `none`). -/
theorem accumulate_time_nan_speed_panics :
    accumulate_time (PhysicsTime.default.run .nan) 1000000000 = none := by decide

/-- C4 amended: duration addition saturates at `Duration::MAX`, subtraction is
checked, and the overstep clamp only shrinks the overstep, so `expend_time`
and `limit_overstep` never panic; `accumulate_time` panics exactly when the
mode is `Running` with a speed other than `+∞` whose product with the delta is
negative, not finite, or exceeds `Duration::MAX` (NaN, `-∞`, negative finite
speeds, and overflowing products). -/
theorem core_arithmetic_graceful :
    (∀ (t : PhysicsTime) (d : Nat),
       accumulate_time t d = none ↔
         ∃ s, t.context.mode = .Running s ∧ s ≠ .inf ∧ durMulF32 d s = none) ∧
    (∀ (t : PhysicsTime) (d : Nat) (t1 : PhysicsTime) (s : F32),
       t.context.mode = .Running s → accumulate_time t d = some t1 →
       t1.context.overstep ≤ DMAX) ∧
    (∀ t : PhysicsTime, (expend_time t).2.context.overstep ≤ t.context.overstep) ∧
    (∀ t : PhysicsTime, (limit_overstep t).context.overstep ≤ t.context.overstep) := by
  refine ⟨?_, ?_, ?_, fun t => Nat.min_le_left _ _⟩
  · intro t d
    constructor
    · intro h
      unfold accumulate_time at h
      split at h
      · cases h
      · cases h
      · next s hm =>
          split at h
          · cases h
          · next hs =>
              split at h
              · next hmul => exact ⟨s, hm, hs, hmul⟩
              · cases h
    · rintro ⟨s, hm, hs, hmul⟩
      simp only [accumulate_time, hm]
      rw [if_neg hs, hmul]
  · intro t d t1 s hm h
    simp only [accumulate_time, hm] at h
    split at h
    · cases h
      exact le_refl _
    · split at h
      · cases h
      · cases h
        exact Nat.min_le_right _ _
  · intro t
    unfold expend_time
    split
    · exact le_refl _
    · exact Nat.zero_le _
    · split
      · next nv heq =>
          unfold checkedSub at heq
          split at heq
          · cases heq
            exact Nat.sub_le _ _
          · cases heq
      · exact le_refl _

/-- Witness for C4: accumulating 1 s at the default speed keeps the overstep
within `Duration::MAX`. -/
theorem core_arithmetic_graceful_witness :
    (⟨⟨.Running (.finite 1), .Running (.finite 1), 15625000, 1000000000⟩, 0⟩ :
        PhysicsTime).context.overstep ≤ DMAX :=
  core_arithmetic_graceful.2.1 PhysicsTime.default 1000000000 _ (.finite 1) rfl (by decide)

end SimTime

namespace SimTime

/-- C5: `expend_time` returns false in `Paused` and leaves the clock alone; in
`OneTick` it returns true exactly once, flips the mode to `Paused` and zeroes
the overstep; in `Running` it returns true and subtracts the timestep iff
`timestep ≤ overstep`; every true result advances the elapsed total by exactly
one timestep and a false one leaves it unchanged, so the elapsed total of any
clock reachable from the default is a multiple of `DEFAULT_TIMESTEP`. -/
theorem try_consume_step_spec :
    (∀ t : PhysicsTime, t.context.mode = .Paused → expend_time t = (false, t)) ∧
    (∀ t : PhysicsTime, t.context.mode = .OneTick →
       (expend_time t).1 = true ∧
       (expend_time t).2.context.mode = .Paused ∧
       (expend_time t).2.context.overstep = 0 ∧
       (expend_time (expend_time t).2).1 = false ∧
       (expend_time t).2.elapsed = t.elapsed + t.context.timestep) ∧
    (∀ (t : PhysicsTime) (s : F32), t.context.mode = .Running s →
       (t.context.timestep ≤ t.context.overstep →
          expend_time t =
            (true,
             { context := { t.context with overstep := t.context.overstep - t.context.timestep },
               elapsed := t.elapsed + t.context.timestep })) ∧
       (t.context.overstep < t.context.timestep → expend_time t = (false, t))) ∧
    (∀ (t t' : PhysicsTime) (b : Bool), expend_time t = (b, t') →
       t'.elapsed = t.elapsed + (if b then t.context.timestep else 0)) ∧
    (∀ (cs : List Cmd) (t : PhysicsTime),
       runCmds PhysicsTime.default cs = some t → DEFAULT_TIMESTEP ∣ t.elapsed) := by
  refine ⟨fun t h => expend_time_paused h, ?_, ?_, ?_, ?_⟩
  · intro t h
    rw [expend_time_oneTick h]
    refine ⟨rfl, rfl, rfl, ?_, rfl⟩
    rw [expend_time_paused rfl]
  · intro t s h
    exact ⟨fun hov => expend_time_running_true h hov,
      fun hov => expend_time_running_false h hov⟩
  · intro t t' b h
    unfold expend_time at h
    split at h
    · cases h; simp
    · cases h; simp
    · split at h
      · cases h; simp
      · cases h; simp
  · intro cs t h
    exact (inv_runCmds cs PhysicsTime.default t inv_default h).2.2.2

/-- Witness for C5: a concrete `Paused` clock refuses a sub-step, and the
default clock has a timestep-divisible elapsed total. -/
theorem try_consume_step_spec_witness :
    expend_time (⟨⟨.Paused, .Running (.finite 1), 15625000, 42⟩, 0⟩ : PhysicsTime) =
      (false, ⟨⟨.Paused, .Running (.finite 1), 15625000, 42⟩, 0⟩) ∧
    DEFAULT_TIMESTEP ∣ (PhysicsTime.default).elapsed :=
  ⟨try_consume_step_spec.1 _ rfl, try_consume_step_spec.2.2.2.2 [] PhysicsTime.default rfl⟩

/-- C6 counterexample: the claim promises a saturating addition for every
finite speed, but a finite negative speed (`run(-1.0)`) followed by a 1 s
accumulation panics inside `Duration::mul_f32` (modelled by `none`) instead of
performing any addition. -/
theorem accumulate_time_negative_speed_panics :
    accumulate_time (PhysicsTime.default.run (.finite (-1))) 1000000000 = none := by decide

/-- C6 amended: `accumulate_time` is a no-op in `Paused` and `OneTick`; with
speed `+∞` it sets the overstep to `Duration::MAX` without computing a
product; with a finite nonnegative speed whose exact scaled delta fits in a
`Duration` it adds the floored product to the overstep with saturating
addition (negative finite speeds, NaN, `-∞` and overflowing products panic
instead, see the counterexample). -/
theorem accumulate_time_spec :
    (∀ (t : PhysicsTime) (d : Nat), t.context.mode = .Paused → accumulate_time t d = some t) ∧
    (∀ (t : PhysicsTime) (d : Nat), t.context.mode = .OneTick → accumulate_time t d = some t) ∧
    (∀ (t : PhysicsTime) (d : Nat), t.context.mode = .Running .inf →
       accumulate_time t d = some { t with context := { t.context with overstep := DMAX } }) ∧
    (∀ (t : PhysicsTime) (d : Nat) (q : ℚ), t.context.mode = .Running (.finite q) →
       0 ≤ q.num → (d : Int) * q.num ≤ (DMAX : Int) * q.den →
       accumulate_time t d =
         some { t with context :=
           { t.context with
             overstep := satAdd t.context.overstep (d * q.num.toNat / q.den) } }) := by
  refine ⟨?_, ?_, ?_, ?_⟩
  · intro t d h
    simp only [accumulate_time, h]
  · intro t d h
    simp only [accumulate_time, h]
  · intro t d h
    simp only [accumulate_time, h]
    rw [if_pos trivial]
  · intro t d q h hnum hble
    have hne : (F32.finite q : F32) ≠ .inf := by intro hh; cases hh
    have hcond : ¬(q.num < 0 ∨ (DMAX : Int) * q.den < (d : Int) * q.num) :=
      fun hor => hor.elim (Int.not_lt.mpr hnum) (Int.not_lt.mpr hble)
    simp only [accumulate_time, h]
    rw [if_neg hne]
    simp only [durMulF32]
    rw [if_neg hcond]

/-- Witness for C6: accumulating 2 s at normal speed from the default clock. -/
theorem accumulate_time_spec_witness :
    accumulate_time PhysicsTime.default 2000000000 =
      some { PhysicsTime.default with context :=
        { PhysicsTime.default.context with
          overstep := satAdd PhysicsTime.default.context.overstep
            (2000000000 * (1 : ℚ).num.toNat / (1 : ℚ).den) } } :=
  accumulate_time_spec.2.2.2 PhysicsTime.default 2000000000 1 rfl (by decide) (by decide)

/-- C7: `old_mode` is written only when entering a `Running` mode, and on every
clock reachable from the default it holds a `Running` variant; the command
sequence `run(2.0); pause(); resume()` ends with mode `Running {speed: 2.0}`. -/
theorem old_mode_always_running :
    (∀ (c : PhysicsTimeInner) (m : PhysicsTimeMode), m.isRunning = false →
       (c.set_mode m).old_mode = c.old_mode) ∧
    (∀ (cs : List Cmd) (t : PhysicsTime), runCmds PhysicsTime.default cs = some t →
       t.context.old_mode.isRunning = true) ∧
    ((PhysicsTime.default.run (.finite 2)).pause.resume.context.mode = .Running (.finite 2)) := by
  refine ⟨?_, ?_, by decide⟩
  · intro c m hm
    cases m with
    | Running s => simp [PhysicsTimeMode.isRunning] at hm
    | Paused => rfl
    | OneTick => rfl
  · intro cs t h
    exact (inv_runCmds cs PhysicsTime.default t inv_default h).1

/-- Witness for C7: entering `Paused` keeps the recorded running mode, and the
default clock's `old_mode` is `Running`. -/
theorem old_mode_always_running_witness :
    ((⟨.Running (.finite 1), .Running (.finite 1), 15625000, 0⟩ :
        PhysicsTimeInner).set_mode .Paused).old_mode =
      (⟨.Running (.finite 1), .Running (.finite 1), 15625000, 0⟩ :
        PhysicsTimeInner).old_mode ∧
    (PhysicsTime.default).context.old_mode.isRunning = true :=
  ⟨old_mode_always_running.1 _ .Paused rfl,
   old_mode_always_running.2.1 [] PhysicsTime.default rfl⟩

end SimTime

namespace SimTime

/-- C8: processing a restart event leaves the clock with zero elapsed total,
zero overstep and mode `Running {speed: 1.0}`, regardless of the prior
state (`reset_scene` replaces the clock with the default and resumes it). -/
theorem reset_scene_spec (t : PhysicsTime) :
    (reset_scene true t).elapsed = 0 ∧
    (reset_scene true t).context.overstep = 0 ∧
    (reset_scene true t).context.mode = .Running (.finite 1) :=
  ⟨rfl, rfl, rfl⟩

/-- C9: on every clock reachable from the default, `resume()` applies in every
mode: it sets the mode to `old_mode`, which is always a `Running` variant —
in particular it cancels a pending `OneTick` — and it leaves the clock
entirely unchanged when the mode is already `Running`. -/
theorem resume_applies_in_every_mode (cs : List Cmd) (t : PhysicsTime)
    (h : runCmds PhysicsTime.default cs = some t) :
    t.resume.context.mode = t.context.old_mode ∧
    (t.resume.context.mode).isRunning = true ∧
    (t.context.mode = .OneTick → t.resume.context.mode ≠ .OneTick) ∧
    (t.context.mode.isRunning = true → t.resume = t) := by
  obtain ⟨h1, h2, _, _⟩ := inv_runCmds cs PhysicsTime.default t inv_default h
  obtain ⟨s, hs⟩ := (isRunning_iff t.context.old_mode).mp h1
  obtain ⟨⟨mode, om, ts, ov⟩, el⟩ := t
  have hom : om = .Running s := hs
  subst hom
  refine ⟨?_, ?_, ?_, ?_⟩
  · simp [PhysicsTime.resume, PhysicsTimeInner.set_mode]
  · simp [PhysicsTime.resume, PhysicsTimeInner.set_mode, PhysicsTimeMode.isRunning]
  · intro _
    simp [PhysicsTime.resume, PhysicsTimeInner.set_mode]
  · intro hr
    have heq : mode = .Running s := h2 hr
    subst heq
    simp [PhysicsTime.resume, PhysicsTimeInner.set_mode]

/-- Witness for C9: resuming the freshly created default clock. -/
theorem resume_applies_in_every_mode_witness :
    PhysicsTime.default.resume.context.mode = PhysicsTime.default.context.old_mode ∧
    (PhysicsTime.default.resume.context.mode).isRunning = true ∧
    (PhysicsTime.default.context.mode = .OneTick →
       PhysicsTime.default.resume.context.mode ≠ .OneTick) ∧
    (PhysicsTime.default.context.mode.isRunning = true →
       PhysicsTime.default.resume = PhysicsTime.default) :=
  resume_applies_in_every_mode [] PhysicsTime.default rfl

theorem diagnosics_count_iterate (k : Nat) :
    ∀ c : Nat, c < U32_MODULUS → diagnosics_count^[k] c = (c + k) % U32_MODULUS := by
  induction k with
  | zero =>
      intro c hc
      show c = (c + 0) % U32_MODULUS
      rw [Nat.add_zero, Nat.mod_eq_of_lt hc]
  | succ k ih =>
      intro c hc
      rw [Function.iterate_succ_apply]
      have hlt : (c + 1) % U32_MODULUS < U32_MODULUS := Nat.mod_lt _ (by decide)
      rw [show diagnosics_count c = (c + 1) % U32_MODULUS from rfl]
      rw [ih _ hlt, Nat.mod_add_mod]
      congr 1
      omega

/-- C10: with a zero real-time delta `diagnostics_report` adds no sample and
does not reset the sub-step counter, so sub-steps counted during a
zero-duration frame stay in the `u32` counter (which wraps modulo `2^32`) and
enter the next nonzero frame's steps-per-second sample, divided only by that
later frame's duration. -/
theorem zero_delta_frame_counts_carry (c k : Nat) (d : ℚ) (hist : List ℚ)
    (hc : c < U32_MODULUS) (hd : d ≠ 0) :
    diagnostics_report c 0 hist = (c, hist) ∧
    diagnostics_report (diagnosics_count^[k] c) d hist =
      (0, addMeasurement hist ((((c + k) % U32_MODULUS : Nat) : ℚ) / d)) := by
  constructor
  · simp [diagnostics_report]
  · rw [diagnosics_count_iterate k c hc]
    simp [diagnostics_report, hd]

/-- Witness for C10: five sub-steps stranded by a zero-delta frame are
reported together with three later ones against the later frame's delta. -/
theorem zero_delta_frame_counts_carry_witness :
    diagnostics_report 5 0 [] = (5, []) ∧
    diagnostics_report (diagnosics_count^[3] 5) 1 [] =
      (0, addMeasurement [] ((((5 + 3) % U32_MODULUS : Nat) : ℚ) / 1)) :=
  zero_delta_frame_counts_carry 5 3 1 [] (by decide) (by decide)

end SimTime
